import Mathlib

/-! Workshop-game: deferred deletion of colliding characters and frame pacing.

A shallow embedding of `src/workshop-game/main.cpp`.

Representation choices, all stated once here:

* A `b2Body*` is a natural number (the address of the body). The physics world
  keeps the list of live bodies; `CreateBody` hands out a fresh address.
* A `Character*` is represented by the object it points to. A `Character` is
  never mutated after its constructor ran and the program never compares
  `Character` addresses (except for a log line), so the value and the pointer
  carry the same information; the null pointer is `none`.
* `std::set<b2Body*>` is a list of addresses kept strictly ascending, which is
  also the iteration order of the set.
* `std::vector<std::unique_ptr<Character>>` is the list of the owned objects.
* Console output, body geometry (positions, box extents, density, friction)
  and the solver's integration are not part of the modelled state.
* Two ghost traces are kept in the world: the arguments of every
  `DestroyBody` call and the time step of every `Step` call.
* `std::chrono::duration<double>` values are exact rationals (seconds).
-/

namespace Workshop

/-! ## Box2D data the program reads -/

/-- Box2D `b2BodyType`, an unscoped enum with values 0, 1, 2. -/
inductive b2BodyType where
  | b2_staticBody
  | b2_kinematicBody
  | b2_dynamicBody
  deriving DecidableEq, Repr

/-- Integer value of a `b2BodyType` enumerator. -/
def b2BodyType.toNat : b2BodyType → Nat
  | .b2_staticBody => 0
  | .b2_kinematicBody => 1
  | .b2_dynamicBody => 2

/-- Box2D `b2Shape::Type`, an unscoped enum with values 0, 1, 2, 3. -/
inductive b2ShapeType where
  | e_circle
  | e_edge
  | e_polygon
  | e_chain
  deriving DecidableEq, Repr

/-- Integer value of a `b2Shape::Type` enumerator. -/
def b2ShapeType.toNat : b2ShapeType → Nat
  | .e_circle => 0
  | .e_edge => 1
  | .e_polygon => 2
  | .e_chain => 3

/-- The class `Character`: its two private data members. -/
structure Character where
  /-- Member `b2Body* body`. -/
  body : Nat
  /-- Member `int size`. -/
  size : Int
  deriving DecidableEq, Repr

/-- The part of a `b2BodyDef` the program sets; the defaults are those of Box2D. -/
structure b2BodyDef where
  type : b2BodyType := .b2_staticBody
  userData : Option Character := none
  deriving DecidableEq, Repr

/-- A live `b2Body`: its address, its type, the shape types of its fixtures and
its `userData.pointer`. -/
structure b2Body where
  handle : Nat
  m_type : b2BodyType
  m_fixtureList : List b2ShapeType
  m_userData : Option Character
  deriving DecidableEq, Repr

/-- A `b2Fixture` as seen through a contact: the body it is attached to and its shape. -/
structure b2Fixture where
  m_body : Nat
  m_shape : b2ShapeType
  deriving DecidableEq, Repr

/-- The `b2Fixture::GetBody`. -/
def b2Fixture.GetBody (f : b2Fixture) : Nat := f.m_body

/-- The `b2Fixture::GetType`: Box2D returns the type of the fixture's shape. -/
def b2Fixture.GetType (f : b2Fixture) : b2ShapeType := f.m_shape

/-- A `b2Contact`: the two touching fixtures. -/
structure b2Contact where
  fixtureA : b2Fixture
  fixtureB : b2Fixture
  deriving DecidableEq, Repr

/-- The `b2World`: live bodies, the next fresh address, and the two ghost traces. -/
structure b2World where
  m_bodyList : List b2Body
  nextHandle : Nat
  destroyCalls : List Nat
  stepCalls : List ℚ
  deriving DecidableEq

/-- The `new b2World(gravity)`: no bodies yet. -/
def b2World.new : b2World :=
  { m_bodyList := [], nextHandle := 1, destroyCalls := [], stepCalls := [] }

/-- Dereference a `b2Body*` in the world: the live body at that address. -/
def b2World.deref (w : b2World) (body : Nat) : Option b2Body :=
  w.m_bodyList.find? (fun b => b.handle == body)

/-- The `b2World::CreateBody`: a new body without fixtures at a fresh address. -/
def b2World.CreateBody (w : b2World) (bd : b2BodyDef) : Nat × b2World :=
  (w.nextHandle,
    { w with
      m_bodyList :=
        { handle := w.nextHandle, m_type := bd.type, m_fixtureList := [],
          m_userData := bd.userData } :: w.m_bodyList
      nextHandle := w.nextHandle + 1 })

/-- The `b2Body::CreateFixture` on the body at address `body`. -/
def b2World.CreateFixture (w : b2World) (body : Nat) (shape : b2ShapeType) : b2World :=
  { w with
    m_bodyList := w.m_bodyList.map (fun b =>
      if b.handle == body then { b with m_fixtureList := shape :: b.m_fixtureList } else b) }

/-- The `b2World::DestroyBody`: the body leaves the world; the call is traced. -/
def b2World.DestroyBody (w : b2World) (body : Nat) : b2World :=
  { w with
    m_bodyList := w.m_bodyList.filter (fun b => !(b.handle == body))
    destroyCalls := w.destroyCalls ++ [body] }

/-- The `b2World::Step` as far as the world itself is concerned: the call is traced. -/
def b2World.Step (w : b2World) (timeStep : ℚ) : b2World :=
  { w with stepCalls := w.stepCalls ++ [timeStep] }

/-! ## Globals -/

/-- The global state: `g_world`, `to_delete` and `characters`. -/
structure Game where
  g_world : b2World
  to_delete : List Nat
  characters : List Character
  deriving DecidableEq

/-- The `std::set<b2Body*>::insert` on the ascending list of elements. -/
def setInsert (x : Nat) : List Nat → List Nat
  | [] => [x]
  | y :: ys =>
    if x < y then x :: y :: ys
    else if x = y then y :: ys
    else y :: setInsert x ys

/-! ## class Character -/

/-- Constructor `Character(int p_size, float x, float y)`: creates the body,
tagged with `this`, dynamic, with one polygon (box) fixture. -/
def Character.ctor (g_world : b2World) (p_size : Int) : Character × b2World :=
  let this : Character := { size := p_size, body := g_world.nextHandle }
  let box_bd : b2BodyDef := { userData := some this, type := .b2_dynamicBody }
  let r := g_world.CreateBody box_bd
  ({ size := p_size, body := r.1 }, r.2.CreateFixture r.1 .e_polygon)

/-- Destructor `~Character`: destroys the body. -/
def Character.dtor (this : Character) (g_world : b2World) : b2World :=
  g_world.DestroyBody this.body

/-- The overloaded `operator==`: same body. -/
def Character.eq (this rhs : Character) : Bool := this.body == rhs.body

/-- The overloaded `operator<`: smaller size. -/
def Character.lt (this rhs : Character) : Bool := decide (this.size < rhs.size)

/-- The collision callback `this->onCollision(other)`. -/
def Character.onCollision (this other : Character) (g : Game) : Game :=
  let character_to_delete := if this.lt other then this else other
  { g with to_delete := setInsert character_to_delete.body g.to_delete }

/-- The static `getCharacterPointerFromBody`: the user data of the body. -/
def Character.getCharacterPointerFromBody (w : b2World) (body : Nat) : Option Character :=
  match w.deref body with
  | some b => b.m_userData
  | none => none

/-! ## MyCollisionListener -/

/-- The `MyCollisionListener::BeginContact`. -/
def BeginContact (g : Game) (contact : b2Contact) : Game :=
  let fixtureA := contact.fixtureA
  let fixtureB := contact.fixtureB
  let bodyA := fixtureA.GetBody
  let bodyB := fixtureB.GetBody
  if fixtureA.GetType.toNat == b2BodyType.b2_dynamicBody.toNat
      && fixtureB.GetType.toNat == b2BodyType.b2_dynamicBody.toNat then
    match Character.getCharacterPointerFromBody g.g_world bodyA,
          Character.getCharacterPointerFromBody g.g_world bodyB with
    | some characterA_pointer, some characterB_pointer =>
      characterA_pointer.onCollision characterB_pointer g
    | _, _ => g
  else g

/-- The `MyCollisionListener::EndContact`: only prints. -/
def EndContact (g : Game) (contact : b2Contact) : Game :=
  let fixtureA := contact.fixtureA
  let fixtureB := contact.fixtureB
  let bodyA := fixtureA.GetBody
  let bodyB := fixtureB.GetBody
  if fixtureA.GetType.toNat == b2BodyType.b2_dynamicBody.toNat
      && fixtureB.GetType.toNat == b2BodyType.b2_dynamicBody.toNat then
    if (Character.getCharacterPointerFromBody g.g_world bodyA).isSome
        && (Character.getCharacterPointerFromBody g.g_world bodyB).isSome then g
    else g
  else g

/-- A contact notification the solver delivers during `Step`. -/
inductive ContactEvent where
  | begin (contact : b2Contact)
  | finish (contact : b2Contact)
  deriving DecidableEq, Repr

/-- Deliver one notification to the listener. -/
def dispatch (g : Game) : ContactEvent → Game
  | .begin c => BeginContact g c
  | .finish c => EndContact g c

/-! ## Free functions of main.cpp -/

/-- The statement `characters.push_back(std::make_unique<Character>(p_size, x, y))`. -/
def spawn (g : Game) (p_size : Int) : Game :=
  let r := Character.ctor g.g_world p_size
  { g with g_world := r.2, characters := g.characters ++ [r.1] }

/-- Implicit conversion of a `double` to `int`: the fractional part is discarded
(rounding toward zero). Values outside the range of `int` are not considered. -/
def doubleToInt (d : ℚ) : Int := d.num.tdiv d.den

/-- The `MouseButtonCallback` with `action == GLFW_PRESS`: a character whose
`int p_size` is initialised from the cursor coordinate `double yd`. -/
def MouseButtonCallback (g : Game) (yd : ℚ) : Game :=
  spawn g (doubleToInt yd)

/-- The body of the `for` loop of `clear_bodies` for the element `itb`, up to
but not including `to_delete.erase(itb)`. -/
def clear_body (g : Game) (itb : Nat) : Game :=
  match Character.getCharacterPointerFromBody g.g_world itb with
  | some character_pointer =>
    match g.characters.find? (fun c => c.eq character_pointer) with
    | some itc =>
      { g with
        g_world := itc.dtor g.g_world
        characters := g.characters.eraseP (fun c => c.eq character_pointer) }
    | none => g
  | none => { g with g_world := g.g_world.DestroyBody itb }

/-- The `for` loop of `clear_bodies` over the elements still in `to_delete`. -/
def clear_loop : List Nat → Game → Game
  | [], g => { g with to_delete := [] }
  | itb :: rest, g => clear_loop rest { clear_body g itb with to_delete := rest }

/-- The `clear_bodies`. -/
def clear_bodies (g : Game) : Game :=
  if !g.to_delete.isEmpty then clear_loop g.to_delete g else g

/-- The `g_world->Step(timeStep, 8, 3)`: the solver advances and fires the
notifications `events`, in order, at the registered listener. -/
def Step (g : Game) (timeStep : ℚ) (events : List ContactEvent) : Game :=
  events.foldl dispatch { g with g_world := g.g_world.Step timeStep }

/-- The teardown after the main loop: `reset` every entry, then `clear`. -/
def teardown (g : Game) : Game :=
  { g with
    g_world := g.characters.foldl (fun w c => c.dtor w) g.g_world
    characters := [] }

/-- Create a body that is not a `Character` (ground, domino piece): `CreateBody`
with null user data followed by `CreateFixture`. -/
def createPiece (w : b2World) (type : b2BodyType) (shape : b2ShapeType) : b2World :=
  let r := w.CreateBody { type := type }
  r.2.CreateFixture r.1 shape

/-- The 60 domino pieces. -/
def dominoes : Nat → b2World → b2World
  | 0, w => w
  | n + 1, w => dominoes n (createPiece w .b2_dynamicBody .e_polygon)

/-- State of the globals when `main` enters its loop: ground, the first
character of size 500, and the dominoes. -/
def startup : Game :=
  let w0 := createPiece b2World.new .b2_staticBody .e_edge
  let g1 := spawn { g_world := w0, to_delete := [], characters := [] } 500
  { g1 with g_world := dominoes 60 g1.g_world }

/-! ## Frame pacing -/

/-- The loop variables `frameTime` and `sleepAdjust`. -/
structure Pacing where
  frameTime : ℚ
  sleepAdjust : ℚ
  deriving DecidableEq

/-- Both start at `0.0`. -/
def Pacing.init : Pacing := { frameTime := 0, sleepAdjust := 0 }

/-- The `target(1.0 / 60.0)`. -/
def target : ℚ := 1 / 60

/-- The `float timeStep = 60 > 0.0f ? 1.0f / 60 : float(0.0f)`. -/
def timeStep : ℚ := if (60 : ℚ) > 0 then 1 / 60 else 0

/-- The `sleepTime = target - timeUsed + sleepAdjust` with `timeUsed = t2 - t1`. -/
def sleepTime (p : Pacing) (t1 t2 : ℚ) : ℚ :=
  let timeUsed := t2 - t1
  target - timeUsed + p.sleepAdjust

/-- Whether `sleep_for` is called: `sleepTime > 0`. -/
def sleeps (p : Pacing) (t1 t2 : ℚ) : Bool := decide (sleepTime p t1 t2 > 0)

/-- The end of the loop body: new `frameTime` and the low pass filter on `sleepAdjust`. -/
def throttle (p : Pacing) (t1 t3 : ℚ) : Pacing :=
  let frameTime := t3 - t1
  { frameTime := frameTime
    sleepAdjust := 9 / 10 * p.sleepAdjust + 1 / 10 * (target - frameTime) }

/-- What one iteration of the main loop receives from outside: the contact
notifications fired inside `Step`, the cursor coordinate `yd` of each mouse
press handled by `glfwPollEvents`, and the three clock readings. -/
structure FrameInput where
  events : List ContactEvent
  presses : List ℚ
  t1 : ℚ
  t2 : ℚ
  t3 : ℚ

/-- One iteration of the main loop on the globals: `Step`, `clear_bodies`,
then the mouse callbacks run by `glfwPollEvents`. -/
def frame (g : Game) (i : FrameInput) : Game :=
  let g1 := Step g timeStep i.events
  let g2 := clear_bodies g1
  i.presses.foldl MouseButtonCallback g2

/-- One iteration of the main loop on the pacing variables; the flag tells
whether the iteration slept. -/
def pace (p : Pacing) (i : FrameInput) : Bool × Pacing :=
  (sleeps p i.t1 i.t2, throttle p i.t1 i.t3)

/-- The main loop over a sequence of frames. -/
def mainLoop (s : Game × Pacing) (inputs : List FrameInput) : Game × Pacing :=
  inputs.foldl (fun s i => (frame s.1 i, (pace s.2 i).2)) s

/-- The clock readings of one iteration are consistent with the pacing state:
time does not run backwards, and when `sleep_for` is called it blocks for at
least the requested duration. -/
def ClockOK (p : Pacing) (i : FrameInput) : Prop :=
  i.t1 ≤ i.t2 ∧ i.t2 ≤ i.t3 ∧ (sleeps p i.t1 i.t2 = true → i.t2 + sleepTime p i.t1 i.t2 ≤ i.t3)

/-- The pacing variables after a sequence of iterations. -/
def paceRun (p : Pacing) (inputs : List FrameInput) : Pacing :=
  inputs.foldl (fun p i => (pace p i).2) p

/-- Every iteration of a run has consistent clock readings. -/
def RunOK : Pacing → List FrameInput → Prop
  | _, [] => True
  | p, i :: rest => ClockOK p i ∧ RunOK (pace p i).2 rest

/-! ## Concrete states used to exercise the theorems -/

/-- No bodies, nothing queued, no characters. -/
def Game.new : Game := { g_world := b2World.new, to_delete := [], characters := [] }

/-- Two characters of sizes 100 and 50, at addresses 1 and 2. -/
def twoCharacters : Game := spawn (spawn Game.new 100) 50

/-- Two characters of sizes 500 and 11, at addresses 1 and 2. -/
def duel : Game := spawn (spawn Game.new 500) 11

/-- Three characters. -/
def threeCharacters : Game := spawn (spawn (spawn Game.new 30) 20) 10

/-- A contact between the box fixtures of the bodies at addresses 1 and 2. -/
def contact12 : b2Contact :=
  { fixtureA := { m_body := 1, m_shape := .e_polygon }
    fixtureB := { m_body := 2, m_shape := .e_polygon } }

/-- An iteration whose work takes 61/60 s. -/
def slowFrame : FrameInput := { events := [], presses := [], t1 := 0, t2 := 61 / 60, t3 := 61 / 60 }

/-- An iteration whose work takes one millisecond. -/
def quickFrame : FrameInput :=
  { events := [], presses := [], t1 := 2, t2 := 2 + 1 / 1000, t3 := 2 + 1 / 1000 }

/-! ## Invariants of the globals -/

/-- Postcondition of the `Character` constructor, seen from the world: a live
body whose user data points to a character is the body stored in that
character, is dynamic, and has the box fixture as its only fixture. -/
def CharacterBodies (w : b2World) : Prop :=
  ∀ b ∈ w.m_bodyList, ∀ c, b.m_userData = some c →
    c.body = b.handle ∧ b.m_type = .b2_dynamicBody ∧ b.m_fixtureList = [.e_polygon]

/-- Live bodies have pairwise distinct addresses, all below the next fresh one. -/
def FreshHandles (w : b2World) : Prop :=
  (w.m_bodyList.map (fun b => b.handle)).Nodup ∧ ∀ b ∈ w.m_bodyList, b.handle < w.nextHandle

/-- The contact is between fixtures of the world: when the body of a fixture is
live, the shape of the fixture is one of the fixtures of that body. -/
def ContactIn (w : b2World) (contact : b2Contact) : Prop :=
  (∀ b, w.deref contact.fixtureA.GetBody = some b → contact.fixtureA.GetType ∈ b.m_fixtureList) ∧
  (∀ b, w.deref contact.fixtureB.GetBody = some b → contact.fixtureB.GetType ∈ b.m_fixtureList)

/-- The invariant of the globals. -/
structure Inv (g : Game) : Prop where
  /-- Representation invariant of `std::set`: strictly ascending. -/
  queue : g.to_delete.Pairwise (· < ·)
  /-- Addresses of live bodies are distinct and were handed out by the world. -/
  fresh : FreshHandles g.g_world
  /-- Tagged bodies are as the `Character` constructor made them. -/
  built : CharacterBodies g.g_world
  /-- The body of every registry entry is live and tagged with that entry. -/
  owns : ∀ c ∈ g.characters, ∃ b ∈ g.g_world.m_bodyList, b.handle = c.body ∧ b.m_userData = some c
  /-- The character every tagged live body points to is a registry entry. -/
  registered : ∀ b ∈ g.g_world.m_bodyList, ∀ c, b.m_userData = some c → c ∈ g.characters
  /-- No two registry entries reference the same body. -/
  distinct : (g.characters.map (fun c => c.body)).Nodup

/-- The correspondence between registry entries and character-tagged live
bodies: each entry's body is live and tagged with that entry, each tagged live
body is referenced by exactly one registry entry, which is the character it is
tagged with, and no two entries reference the same body. -/
def Bijection (g : Game) : Prop :=
  (∀ c ∈ g.characters, Character.getCharacterPointerFromBody g.g_world c.body = some c) ∧
  (∀ b ∈ g.g_world.m_bodyList, ∀ c, b.m_userData = some c →
    g.characters.filter (fun e => e.body == b.handle) = [c]) ∧
  (g.characters.map (fun c => c.body)).Nodup

/-- States the program reaches from the start of the main loop: by a mouse
press, by the collision callbacks (singly or as fired by a whole `Step`), by one
iteration of the loop of `clear_bodies`, by `clear_bodies`, and by the teardown. -/
inductive Reachable : Game → Prop
  | startup : Reachable startup
  | press (g : Game) (yd : ℚ) : Reachable g → Reachable (MouseButtonCallback g yd)
  | beginContact (g : Game) (c : b2Contact) : Reachable g → Reachable (BeginContact g c)
  | endContact (g : Game) (c : b2Contact) : Reachable g → Reachable (EndContact g c)
  | step (g : Game) (dt : ℚ) (events : List ContactEvent) :
      Reachable g → Reachable (Step g dt events)
  | clearIteration (g : Game) (itb : Nat) (rest : List Nat) :
      Reachable g → g.to_delete = itb :: rest →
      Reachable { clear_body g itb with to_delete := rest }
  | clear (g : Game) : Reachable g → Reachable (clear_bodies g)
  | teardown (g : Game) : Reachable g → Reachable (teardown g)

/-- The characters of sizes 100 and 50 after the begin-contact notification for
their two boxes. -/
def twoCharactersMarked : Game := BeginContact twoCharacters contact12

/-- A world with one character (address 1) and one domino piece (address 2),
the piece being queued for deletion. -/
def pieceMarked : Game :=
  { spawn Game.new 100 with
    g_world := createPiece (spawn Game.new 100).g_world .b2_dynamicBody .e_polygon
    to_delete := [2] }

/-! ## Lemmas on the deletion set -/

theorem mem_setInsert (x y : Nat) (l : List Nat) :
    y ∈ setInsert x l ↔ y = x ∨ y ∈ l := by
  induction l with
  | nil => simp [setInsert]
  | cons z zs ih =>
    unfold setInsert
    split_ifs with h1 h2
    · simp
    · subst h2; simp
    · simp only [List.mem_cons, ih]; tauto

theorem setInsert_idem (x : Nat) (l : List Nat) :
    setInsert x (setInsert x l) = setInsert x l := by
  induction l with
  | nil => simp [setInsert]
  | cons z zs ih =>
    by_cases h1 : x < z
    · simp [setInsert, h1]
    · by_cases h2 : x = z
      · simp [setInsert, h2]
      · simp [setInsert, h1, h2, ih]

theorem iterate_setInsert (x : Nat) (l : List Nat) (n : Nat) :
    (setInsert x)^[n + 1] l = setInsert x l := by
  induction n with
  | zero => rfl
  | succ k ih => rw [Function.iterate_succ_apply', ih, setInsert_idem]

theorem setInsert_sorted (x : Nat) (l : List Nat) (h : l.Pairwise (· < ·)) :
    (setInsert x l).Pairwise (· < ·) := by
  induction l with
  | nil => simp [setInsert]
  | cons z zs ih =>
    have hz := List.pairwise_cons.mp h
    unfold setInsert
    split_ifs with h1 h2
    · refine List.pairwise_cons.mpr ⟨?_, h⟩
      intro a ha
      rcases List.mem_cons.mp ha with rfl | ha
      · exact h1
      · exact lt_trans h1 (hz.1 a ha)
    · exact h
    · refine List.pairwise_cons.mpr ⟨?_, ih hz.2⟩
      intro a ha
      rcases (mem_setInsert x a zs).mp ha with rfl | ha
      · omega
      · exact hz.1 a ha

/-! ## Frame lemmas: what each operation leaves alone -/

theorem onCollision_frame (a b : Character) (g : Game) :
    (a.onCollision b g).g_world = g.g_world ∧ (a.onCollision b g).characters = g.characters :=
  ⟨rfl, rfl⟩

theorem BeginContact_cases (g : Game) (contact : b2Contact) :
    BeginContact g contact = g ∨
    ∃ a b, Character.getCharacterPointerFromBody g.g_world contact.fixtureA.GetBody = some a ∧
      Character.getCharacterPointerFromBody g.g_world contact.fixtureB.GetBody = some b ∧
      BeginContact g contact = a.onCollision b g := by
  unfold BeginContact
  simp only
  split_ifs with h
  · split
    · next a b ha hb => exact Or.inr ⟨a, b, ha, hb, rfl⟩
    · exact Or.inl rfl
  · exact Or.inl rfl

theorem BeginContact_frame (g : Game) (contact : b2Contact) :
    (BeginContact g contact).g_world = g.g_world ∧
    (BeginContact g contact).characters = g.characters := by
  rcases BeginContact_cases g contact with h | ⟨a, b, -, -, h⟩
  · rw [h]; exact ⟨rfl, rfl⟩
  · rw [h]; exact onCollision_frame a b g

theorem EndContact_eq (g : Game) (contact : b2Contact) : EndContact g contact = g := by
  unfold EndContact
  simp only
  split_ifs <;> rfl

theorem dispatch_frame (g : Game) (e : ContactEvent) :
    (dispatch g e).g_world = g.g_world ∧ (dispatch g e).characters = g.characters := by
  cases e with
  | begin c => exact BeginContact_frame g c
  | finish c => rw [dispatch, EndContact_eq]; exact ⟨rfl, rfl⟩

theorem foldl_dispatch_frame (events : List ContactEvent) (g : Game) :
    (events.foldl dispatch g).g_world = g.g_world ∧
    (events.foldl dispatch g).characters = g.characters := by
  induction events generalizing g with
  | nil => exact ⟨rfl, rfl⟩
  | cons e es ih =>
    rw [List.foldl_cons]
    obtain ⟨h1, h2⟩ := ih (dispatch g e)
    obtain ⟨h3, h4⟩ := dispatch_frame g e
    exact ⟨h1.trans h3, h2.trans h4⟩

theorem dispatch_to_delete (g : Game) (e : ContactEvent) :
    (dispatch g e).to_delete = g.to_delete ∨
    ∃ c ∈ g.characters.map (fun c => c.body) ++
        g.g_world.m_bodyList.filterMap (fun b => b.m_userData.map (fun c => c.body)),
      (dispatch g e).to_delete = setInsert c g.to_delete := by
  cases e with
  | finish c => rw [dispatch, EndContact_eq]; exact Or.inl rfl
  | begin c =>
    rw [dispatch]
    rcases BeginContact_cases g c with h | ⟨a, b, ha, hb, h⟩
    · rw [h]; exact Or.inl rfl
    · refine Or.inr ⟨(if a.lt b then a else b).body, ?_, by rw [h]; rfl⟩
      have key : ∀ (h : Nat) (x : Character),
          Character.getCharacterPointerFromBody g.g_world h = some x →
          x.body ∈ g.g_world.m_bodyList.filterMap
            (fun b => b.m_userData.map (fun c => c.body)) := by
        intro h x hx
        unfold Character.getCharacterPointerFromBody b2World.deref at hx
        split at hx
        · next bd hbd =>
          exact List.mem_filterMap.mpr ⟨bd, List.mem_of_find?_eq_some hbd, by simp [hx]⟩
        · cases hx
      apply List.mem_append_right
      split_ifs
      · exact key _ a ha
      · exact key _ b hb

/-! ## Frame pacing lemmas -/

theorem sleeps_iff (p : Pacing) (t1 t2 : ℚ) :
    sleeps p t1 t2 = true ↔ 0 < target - (t2 - t1) + p.sleepAdjust := by
  simp [sleeps, sleepTime]

theorem pace_sleepAdjust_nonpos (p : Pacing) (i : FrameInput) (hp : p.sleepAdjust ≤ 0)
    (hc : ClockOK p i) : (pace p i).2.sleepAdjust ≤ 0 := by
  obtain ⟨h12, h23, hs⟩ := hc
  have key : target + p.sleepAdjust ≤ i.t3 - i.t1 := by
    by_cases h : sleeps p i.t1 i.t2 = true
    · have := hs h
      simp only [sleepTime] at this
      linarith
    · have h0 : ¬ 0 < target - (i.t2 - i.t1) + p.sleepAdjust := fun hh => h ((sleeps_iff _ _ _).mpr hh)
      linarith
  simp only [pace, throttle]
  linarith

theorem paceRun_sleepAdjust_nonpos (before : List FrameInput) (i : FrameInput) (p : Pacing)
    (hp : p.sleepAdjust ≤ 0) (hr : RunOK p (before ++ [i])) :
    (paceRun p before).sleepAdjust ≤ 0 := by
  induction before generalizing p with
  | nil => exact hp
  | cons j js ih =>
    obtain ⟨hj, hrest⟩ := hr
    exact ih (pace p j).2 (pace_sleepAdjust_nonpos p j hp hj) hrest

/-! ## Trace lemmas -/

theorem foldl_dtor_destroyCalls (cs : List Character) (w : b2World) :
    (cs.foldl (fun w c => c.dtor w) w).destroyCalls =
      w.destroyCalls ++ cs.map (fun c => c.body) := by
  induction cs generalizing w with
  | nil => simp
  | cons c cs ih =>
    rw [List.foldl_cons, ih]
    simp [Character.dtor, b2World.DestroyBody]

theorem foldl_dtor_stepCalls (cs : List Character) (w : b2World) :
    (cs.foldl (fun w c => c.dtor w) w).stepCalls = w.stepCalls := by
  induction cs generalizing w with
  | nil => rfl
  | cons c cs ih => rw [List.foldl_cons, ih]; rfl

theorem clear_body_stepCalls (g : Game) (itb : Nat) :
    (clear_body g itb).g_world.stepCalls = g.g_world.stepCalls := by
  unfold clear_body
  split
  · split <;> rfl
  · rfl

theorem clear_loop_stepCalls (q : List Nat) (g : Game) :
    (clear_loop q g).g_world.stepCalls = g.g_world.stepCalls := by
  induction q generalizing g with
  | nil => rfl
  | cons itb rest ih =>
    rw [clear_loop, ih]
    exact clear_body_stepCalls g itb

theorem clear_bodies_stepCalls (g : Game) :
    (clear_bodies g).g_world.stepCalls = g.g_world.stepCalls := by
  unfold clear_bodies
  split_ifs
  · exact clear_loop_stepCalls _ g
  · rfl

theorem spawn_stepCalls (g : Game) (p_size : Int) :
    (spawn g p_size).g_world.stepCalls = g.g_world.stepCalls := rfl

theorem foldl_MouseButtonCallback_stepCalls (presses : List ℚ) (g : Game) :
    (presses.foldl MouseButtonCallback g).g_world.stepCalls = g.g_world.stepCalls := by
  induction presses generalizing g with
  | nil => rfl
  | cons yd rest ih => rw [List.foldl_cons, ih]; rfl

theorem frame_stepCalls (g : Game) (i : FrameInput) :
    (frame g i).g_world.stepCalls = g.g_world.stepCalls ++ [1 / 60] := by
  unfold frame
  simp only
  rw [foldl_MouseButtonCallback_stepCalls, clear_bodies_stepCalls]
  unfold Step
  rw [(foldl_dispatch_frame _ _).1]
  simp [b2World.Step, timeStep]

/-! ## Collision resolution policy -/

theorem doubleToInt_500 : doubleToInt 500 = 500 := by
  norm_num [doubleToInt]

theorem doubleToInt_11_25 : doubleToInt (45 / 4) = 11 := by
  norm_num [doubleToInt]
  decide

/-- C2. Resolution policy: for two characters whose sizes differ, a collision
in either operand order marks exactly the body of the one with the strictly
smaller size and changes nothing else; the result is a function of the inputs.
In particular, for entities whose sizes are given as 500 and 11.25 (the `int`
member stores 500 and 11), the entity given size 11.25 is the one marked, in
both operand orders. -/
theorem smaller_size_loses (a b : Character) (g : Game) (h : a.size < b.size) :
    a.onCollision b g = { g with to_delete := setInsert a.body g.to_delete } ∧
    b.onCollision a g = { g with to_delete := setInsert a.body g.to_delete } ∧
    (∀ small big : Nat,
      Character.onCollision ⟨small, doubleToInt (45 / 4)⟩ ⟨big, doubleToInt 500⟩ g =
        { g with to_delete := setInsert small g.to_delete } ∧
      Character.onCollision ⟨big, doubleToInt 500⟩ ⟨small, doubleToInt (45 / 4)⟩ g =
        { g with to_delete := setInsert small g.to_delete }) := by
  have key : ∀ x y : Character, x.size < y.size →
      x.onCollision y g = { g with to_delete := setInsert x.body g.to_delete } ∧
      y.onCollision x g = { g with to_delete := setInsert x.body g.to_delete } := by
    intro x y hxy
    have h2 : ¬ y.size < x.size := not_lt.mpr (le_of_lt hxy)
    constructor
    · simp [Character.onCollision, Character.lt, hxy]
    · simp [Character.onCollision, Character.lt, h2]
  refine ⟨(key a b h).1, (key a b h).2, ?_⟩
  intro small big
  rw [doubleToInt_500, doubleToInt_11_25]
  exact key ⟨small, 11⟩ ⟨big, 500⟩ (show (11 : Int) < 500 by decide)

/-- Witness for C2: the characters created from the sizes 500 and 11.25 are
stored with sizes 500 and 11, and the second one loses in both operand orders. -/
theorem smaller_size_loses_witness :
    (MouseButtonCallback (MouseButtonCallback Game.new 500) (45 / 4)) = duel ∧
    (11 : Int) < 500 ∧
    (Character.onCollision ⟨2, 11⟩ ⟨1, 500⟩ duel).to_delete = [2] ∧
    (Character.onCollision ⟨1, 500⟩ ⟨2, 11⟩ duel).to_delete = [2] := by
  have h := smaller_size_loses ⟨2, 11⟩ ⟨1, 500⟩ duel (by decide)
  refine ⟨?_, by decide, ?_, ?_⟩
  · rw [MouseButtonCallback, MouseButtonCallback, doubleToInt_500, doubleToInt_11_25]
    rfl
  · rw [h.1]; decide
  · rw [h.2.1]; decide

/-- C10. Tie-break: for two distinct characters of equal size, `a.onCollision(b)`
marks the body of the argument `b` and does not mark the body of `a`; swapping
the operands marks `a` instead, so the two orders mark different entities. In
`BeginContact` the argument is the character of the second body of the contact. -/
theorem tie_marks_argument (a b : Character) (g : Game)
    (hs : a.size = b.size) (hd : a.body ≠ b.body) :
    a.onCollision b g = { g with to_delete := setInsert b.body g.to_delete } ∧
    b.onCollision a g = { g with to_delete := setInsert a.body g.to_delete } ∧
    b.body ∈ (a.onCollision b g).to_delete ∧
    (a.body ∉ g.to_delete → a.body ∉ (a.onCollision b g).to_delete) ∧
    a.body ∈ (b.onCollision a g).to_delete ∧
    (b.body ∉ g.to_delete → b.body ∉ (b.onCollision a g).to_delete) ∧
    (∀ contact : b2Contact,
      contact.fixtureA.GetType = .e_polygon → contact.fixtureB.GetType = .e_polygon →
      Character.getCharacterPointerFromBody g.g_world contact.fixtureA.GetBody = some a →
      Character.getCharacterPointerFromBody g.g_world contact.fixtureB.GetBody = some b →
      BeginContact g contact = { g with to_delete := setInsert b.body g.to_delete }) := by
  have h1 : ¬ a.size < b.size := by omega
  have h2 : ¬ b.size < a.size := by omega
  have e1 : a.onCollision b g = { g with to_delete := setInsert b.body g.to_delete } := by
    simp [Character.onCollision, Character.lt, h1]
  have e2 : b.onCollision a g = { g with to_delete := setInsert a.body g.to_delete } := by
    simp [Character.onCollision, Character.lt, h2]
  refine ⟨e1, e2, ?_, ?_, ?_, ?_, ?_⟩
  · rw [e1]; exact (mem_setInsert _ _ _).mpr (Or.inl rfl)
  · intro hn; rw [e1]
    intro hm
    rcases (mem_setInsert _ _ _).mp hm with h | h
    · exact hd h
    · exact hn h
  · rw [e2]; exact (mem_setInsert _ _ _).mpr (Or.inl rfl)
  · intro hn; rw [e2]
    intro hm
    rcases (mem_setInsert _ _ _).mp hm with h | h
    · exact hd h.symm
    · exact hn h
  · intro contact hA hB ha hb
    unfold BeginContact
    simp only [hA, hB, ha, hb]
    rw [← e1]
    rfl

/-- Witness for C10: two characters of size 7 at addresses 1 and 2. -/
theorem tie_marks_argument_witness :
    (Character.onCollision ⟨1, 7⟩ ⟨2, 7⟩ Game.new).to_delete = [2] ∧
    (Character.onCollision ⟨2, 7⟩ ⟨1, 7⟩ Game.new).to_delete = [1] := by
  have h := tie_marks_argument ⟨1, 7⟩ ⟨2, 7⟩ Game.new rfl (by decide)
  refine ⟨?_, ?_⟩
  · rw [h.1]; decide
  · rw [h.2.1]; decide

/-! ## Deferred deletion -/

/-- C5. The collision callbacks leave the registry and the world (live bodies
and the trace of `DestroyBody` calls) unchanged: `BeginContact` at most inserts
one address into `to_delete`, `EndContact` changes nothing, and so a whole
`Step` changes neither the registry nor the live bodies; in the frame,
`clear_bodies` runs on the state `Step` returned. -/
theorem callbacks_defer_deletion (g : Game) (contact : b2Contact) (dt : ℚ)
    (events : List ContactEvent) (i : FrameInput) :
    (BeginContact g contact).characters = g.characters ∧
    (BeginContact g contact).g_world = g.g_world ∧
    ((BeginContact g contact).to_delete = g.to_delete ∨
      ∃ h, (BeginContact g contact).to_delete = setInsert h g.to_delete) ∧
    EndContact g contact = g ∧
    (Step g dt events).characters = g.characters ∧
    (Step g dt events).g_world.m_bodyList = g.g_world.m_bodyList ∧
    (Step g dt events).g_world.destroyCalls = g.g_world.destroyCalls ∧
    frame g i = i.presses.foldl MouseButtonCallback (clear_bodies (Step g timeStep i.events)) := by
  refine ⟨(BeginContact_frame g contact).2, (BeginContact_frame g contact).1, ?_,
    EndContact_eq g contact, ?_, ?_, ?_, rfl⟩
  · rcases BeginContact_cases g contact with h | ⟨a, b, -, -, h⟩
    · exact Or.inl (by rw [h])
    · exact Or.inr ⟨(if a.lt b then a else b).body, by rw [h]; rfl⟩
  · unfold Step; rw [(foldl_dispatch_frame _ _).2]
  · unfold Step; rw [(foldl_dispatch_frame _ _).1]; rfl
  · unfold Step; rw [(foldl_dispatch_frame _ _).1]; rfl

/-! ## Shutdown -/

/-- C9. Teardown of a registry whose n entries have pairwise distinct bodies
leaves the registry empty and issues exactly n `DestroyBody` calls: one for the
body of each entry and none for any other body. -/
theorem teardown_destroys_each (g : Game)
    (hnd : (g.characters.map (fun c => c.body)).Nodup) :
    (teardown g).characters = [] ∧
    ∃ calls : List Nat,
      (teardown g).g_world.destroyCalls = g.g_world.destroyCalls ++ calls ∧
      calls.length = g.characters.length ∧
      (∀ c ∈ g.characters, calls.count c.body = 1) ∧
      (∀ b, (∀ c ∈ g.characters, c.body ≠ b) → calls.count b = 0) := by
  refine ⟨rfl, g.characters.map (fun c => c.body), ?_, by simp, ?_, ?_⟩
  · exact foldl_dtor_destroyCalls g.characters g.g_world
  · intro c hc
    exact List.count_eq_one_of_mem hnd (List.mem_map.mpr ⟨c, hc, rfl⟩)
  · intro b hb
    apply List.count_eq_zero_of_not_mem
    intro hm
    obtain ⟨c, hc, rfl⟩ := List.mem_map.mp hm
    exact hb c hc rfl

/-- Witness for C9: three live characters, three `DestroyBody` calls. -/
theorem teardown_destroys_each_witness :
    (teardown threeCharacters).characters = [] ∧
    (teardown threeCharacters).g_world.destroyCalls = [1, 2, 3] := by
  have h := teardown_destroys_each threeCharacters (by decide)
  exact ⟨h.1, by decide⟩

/-! ## Frame pacing -/

/-- C8 (as amended). The iteration sleeps exactly when
`1/60 - elapsed + sleepAdjust > 0`. Hence it sleeps whenever the work took less
than 1/60 s provided `sleepAdjust` is not negative (as in the first
iteration), and it does not sleep whenever the work took more than 1/60 s
provided `sleepAdjust` is not positive, which is the case in every iteration of
a run that starts from the initial values and whose clock readings are
consistent. The world is stepped exactly once per iteration, by 1/60 s,
whatever the clock readings. -/
theorem pacing_decision (p : Pacing) (i : FrameInput) (g : Game) :
    ((pace p i).1 = true ↔ 0 < 1 / 60 - (i.t2 - i.t1) + p.sleepAdjust) ∧
    (0 ≤ p.sleepAdjust → i.t2 - i.t1 < 1 / 60 → (pace p i).1 = true) ∧
    (p.sleepAdjust ≤ 0 → 1 / 60 < i.t2 - i.t1 → (pace p i).1 = false) ∧
    (∀ before : List FrameInput, RunOK Pacing.init (before ++ [i]) →
      1 / 60 < i.t2 - i.t1 → (pace (paceRun Pacing.init before) i).1 = false) ∧
    (frame g i).g_world.stepCalls = g.g_world.stepCalls ++ [1 / 60] := by
  have hiff : ∀ q : Pacing, (pace q i).1 = true ↔ 0 < 1 / 60 - (i.t2 - i.t1) + q.sleepAdjust := by
    intro q
    have := sleeps_iff q i.t1 i.t2
    simpa [pace, target] using this
  have hneg : ∀ q : Pacing, q.sleepAdjust ≤ 0 → 1 / 60 < i.t2 - i.t1 → (pace q i).1 = false := by
    intro q hq hw
    cases hb : (pace q i).1 with
    | false => rfl
    | true =>
      have := (hiff q).mp hb
      linarith
  refine ⟨hiff p, ?_, hneg p, ?_, frame_stepCalls g i⟩
  · intro hp hw
    exact (hiff p).mpr (by linarith)
  · intro before hr hw
    exact hneg _ (paceRun_sleepAdjust_nonpos before i Pacing.init (le_refl _) hr) hw

/-- Witness for C8: the first iteration with one millisecond of work sleeps. -/
theorem pacing_decision_witness :
    quickFrame.t2 - quickFrame.t1 < 1 / 60 ∧ (pace Pacing.init quickFrame).1 = true := by
  have hw : quickFrame.t2 - quickFrame.t1 < 1 / 60 := by norm_num [quickFrame]
  exact ⟨hw, (pacing_decision Pacing.init quickFrame Game.new).2.1 (le_refl _) hw⟩

/-- C8, counterexample to the claim as stated: after an iteration whose work
took 61/60 s, the next iteration does one millisecond of work, less than
1/60 s, and yet does not sleep. The clock readings of the run are consistent. -/
theorem short_frame_without_sleep :
    RunOK Pacing.init [slowFrame, quickFrame] ∧
    quickFrame.t2 - quickFrame.t1 < 1 / 60 ∧
    (pace (paceRun Pacing.init [slowFrame]) quickFrame).1 = false := by
  have hs1 : sleeps Pacing.init slowFrame.t1 slowFrame.t2 = false := by
    simp [sleeps, sleepTime, Pacing.init, slowFrame, target]
    norm_num
  have hadj : (pace Pacing.init slowFrame).2 = ⟨61 / 60, -1 / 10⟩ := by
    simp [pace, throttle, Pacing.init, slowFrame, target]
    norm_num
  have hs2 : sleeps ⟨61 / 60, -1 / 10⟩ quickFrame.t1 quickFrame.t2 = false := by
    simp [sleeps, sleepTime, quickFrame, target]
    norm_num
  refine ⟨⟨⟨?_, ?_, ?_⟩, ⟨?_, ?_, ?_⟩, trivial⟩, ?_, ?_⟩
  · norm_num [slowFrame]
  · norm_num [slowFrame]
  · rw [hs1]; intro h; cases h
  · norm_num [quickFrame]
  · norm_num [quickFrame]
  · rw [hadj, hs2]; intro h; cases h
  · norm_num [quickFrame]
  · show (pace (pace Pacing.init slowFrame).2 quickFrame).1 = false
    rw [hadj]
    exact hs2

/-! ## Dereferencing body addresses -/

theorem deref_eq_some {w : b2World} {h : Nat} {b : b2Body} (hb : w.deref h = some b) :
    b ∈ w.m_bodyList ∧ b.handle = h := by
  unfold b2World.deref at hb
  refine ⟨List.mem_of_find?_eq_some hb, ?_⟩
  have := List.find?_some hb
  simpa using this

theorem find_handle_filter (l : List b2Body) (h k : Nat) :
    (l.filter (fun b => !(b.handle == h))).find? (fun b => b.handle == k) =
      if k = h then none else l.find? (fun b => b.handle == k) := by
  induction l with
  | nil => simp
  | cons b bs ih =>
    rw [List.filter_cons]
    by_cases hb : b.handle = h
    · have e1 : (!(b.handle == h)) = false := by simp [hb]
      rw [e1, if_neg (by simp), ih]
      by_cases hk : k = h
      · rw [if_pos hk, if_pos hk]
      · have e2 : (b.handle == k) = false := by
          simp only [beq_eq_false_iff_ne, ne_eq]
          intro e; exact hk (e ▸ hb)
        rw [if_neg hk, if_neg hk, List.find?_cons, e2]
    · have e1 : (!(b.handle == h)) = true := by simp [hb]
      rw [e1, if_pos rfl, List.find?_cons, List.find?_cons, ih]
      by_cases hk : k = h
      · have e2 : (b.handle == k) = false := by
          simp only [beq_eq_false_iff_ne, ne_eq]
          intro e; exact hb (e.trans hk)
        rw [if_pos hk, if_pos hk, e2]
      · rw [if_neg hk, if_neg hk]

theorem deref_DestroyBody (w : b2World) (h k : Nat) :
    (w.DestroyBody h).deref k = if k = h then none else w.deref k := by
  unfold b2World.deref b2World.DestroyBody
  exact find_handle_filter w.m_bodyList h k

theorem deref_of_mem {w : b2World} {b : b2Body}
    (hnd : (w.m_bodyList.map (fun b => b.handle)).Nodup) (hb : b ∈ w.m_bodyList) :
    w.deref b.handle = some b := by
  unfold b2World.deref
  generalize w.m_bodyList = l at hnd hb
  induction l with
  | nil => cases hb
  | cons x xs ih =>
    rw [List.map_cons, List.nodup_cons] at hnd
    rcases List.mem_cons.mp hb with rfl | hmem
    · simp
    · have hne : ¬ x.handle = b.handle := by
        intro e
        exact hnd.1 (e ▸ List.mem_map.mpr ⟨b, hmem, rfl⟩)
      simp [List.find?_cons, hne]
      simpa using ih hnd.2 hmem

theorem gcp_eq_some {w : b2World} {h : Nat} {c : Character}
    (hc : Character.getCharacterPointerFromBody w h = some c) :
    ∃ b ∈ w.m_bodyList, b.handle = h ∧ b.m_userData = some c := by
  unfold Character.getCharacterPointerFromBody at hc
  split at hc
  · next b hb => exact ⟨b, (deref_eq_some hb).1, (deref_eq_some hb).2, hc⟩
  · cases hc

theorem gcp_of_mem {w : b2World} {b : b2Body}
    (hnd : (w.m_bodyList.map (fun b => b.handle)).Nodup) (hb : b ∈ w.m_bodyList) :
    Character.getCharacterPointerFromBody w b.handle = b.m_userData := by
  unfold Character.getCharacterPointerFromBody
  rw [deref_of_mem hnd hb]

theorem gcp_DestroyBody (w : b2World) (h k : Nat) :
    Character.getCharacterPointerFromBody (w.DestroyBody h) k =
      if k = h then none else Character.getCharacterPointerFromBody w k := by
  unfold Character.getCharacterPointerFromBody
  rw [deref_DestroyBody]
  split_ifs <;> rfl

theorem CharacterBodies_DestroyBody {w : b2World} (h : Nat) (hw : CharacterBodies w) :
    CharacterBodies (w.DestroyBody h) := by
  intro b hb c hc
  exact hw b (List.mem_of_mem_filter hb) c hc

/-! ## One iteration of the loop of `clear_bodies` under the invariant -/

theorem eraseP_eq_filter (l : List Character) (h : Nat)
    (hnd : (l.map (fun c => c.body)).Nodup) :
    l.eraseP (fun c => c.body == h) = l.filter (fun c => !(c.body == h)) := by
  induction l with
  | nil => rfl
  | cons x xs ih =>
    rw [List.map_cons, List.nodup_cons] at hnd
    by_cases hx : x.body = h
    · have e1 : (x.body == h) = true := by simp [hx]
      rw [List.eraseP_cons, List.filter_cons]
      simp only [e1, cond_true, Bool.not_true, Bool.false_eq_true, if_false]
      symm
      apply List.filter_eq_self.mpr
      intro c hc
      have : c.body ≠ h := by
        intro e
        exact hnd.1 (List.mem_map.mpr ⟨c, hc, by rw [e, hx]⟩)
      simp [this]
    · have e1 : (x.body == h) = false := by simp [hx]
      rw [List.eraseP_cons, List.filter_cons]
      simp only [e1, cond_false, Bool.not_false, if_true, ih hnd.2]

theorem Inv.gcp_entry {g : Game} (hinv : Inv g) {c : Character} (hc : c ∈ g.characters) :
    Character.getCharacterPointerFromBody g.g_world c.body = some c := by
  obtain ⟨b, hb, hh, ht⟩ := hinv.owns c hc
  rw [← hh, gcp_of_mem hinv.fresh.1 hb, ht]

theorem clear_body_eq (g : Game) (hinv : Inv g) (itb : Nat) :
    clear_body g itb =
      { g with
        g_world := g.g_world.DestroyBody itb
        characters := g.characters.filter (fun c => !(c.body == itb)) } := by
  unfold clear_body
  split
  · next cp hcp =>
    obtain ⟨b, hb, hh, ht⟩ := gcp_eq_some hcp
    have hbody : cp.body = itb := by rw [(hinv.built b hb cp ht).1, hh]
    have hmem : cp ∈ g.characters := hinv.registered b hb cp ht
    have hfun : (fun c : Character => c.eq cp) = (fun c : Character => c.body == itb) := by
      funext c
      simp [Character.eq, hbody]
    rw [hfun]
    split
    · next itc hitc =>
      have hb2 : itc.body = itb := by
        have := List.find?_some hitc
        simpa using this
      rw [eraseP_eq_filter _ _ hinv.distinct, Character.dtor, hb2]
    · next hnone =>
      exfalso
      have := List.find?_eq_none.mp hnone cp hmem
      simp [hbody] at this
  · next hnone =>
    have hfil : g.characters.filter (fun c => !(c.body == itb)) = g.characters := by
      apply List.filter_eq_self.mpr
      intro c hc
      have : c.body ≠ itb := by
        intro e
        have := hinv.gcp_entry hc
        rw [e, hnone] at this
        cases this
      simp [this]
    rw [hfil]

theorem Inv_destroy (g : Game) (hinv : Inv g) (itb : Nat) (q : List Nat)
    (hq : q.Pairwise (· < ·)) :
    Inv { g with
      g_world := g.g_world.DestroyBody itb
      characters := g.characters.filter (fun c => !(c.body == itb))
      to_delete := q } where
  queue := hq
  fresh := by
    refine ⟨?_, ?_⟩
    · exact hinv.fresh.1.sublist (List.Sublist.map _ (List.filter_sublist _))
    · intro b hb
      exact hinv.fresh.2 b (List.mem_of_mem_filter hb)
  built := CharacterBodies_DestroyBody itb hinv.built
  owns := by
    intro c hc
    have hc1 : c ∈ g.characters := List.mem_of_mem_filter hc
    have hc2 : c.body ≠ itb := by
      have := (List.mem_filter.mp hc).2
      simpa using this
    obtain ⟨b, hb, hh, ht⟩ := hinv.owns c hc1
    refine ⟨b, ?_, hh, ht⟩
    show b ∈ g.g_world.m_bodyList.filter (fun b => !(b.handle == itb))
    exact List.mem_filter.mpr ⟨hb, by simp [hh, hc2]⟩
  registered := by
    intro b hb c hc
    have hb1 : b ∈ g.g_world.m_bodyList := List.mem_of_mem_filter hb
    have hb2 : b.handle ≠ itb := by
      have := (List.mem_filter.mp hb).2
      simpa using this
    show c ∈ g.characters.filter (fun c => !(c.body == itb))
    refine List.mem_filter.mpr ⟨hinv.registered b hb1 c hc, ?_⟩
    have := (hinv.built b hb1 c hc).1
    simp [this, hb2]
  distinct := hinv.distinct.sublist (List.Sublist.map _ (List.filter_sublist _))

theorem Inv_clear_body (g : Game) (hinv : Inv g) (itb : Nat) (q : List Nat)
    (hq : q.Pairwise (· < ·)) : Inv { clear_body g itb with to_delete := q } := by
  rw [clear_body_eq g hinv]
  exact Inv_destroy g hinv itb q hq

/-- Under the invariant the loop destroys every queued address once, in order,
and removes from the registry exactly the entries whose body is queued. -/
theorem clear_loop_eq (q : List Nat) (g : Game) (hinv : Inv g) (hq : q.Pairwise (· < ·)) :
    clear_loop q g =
      { g_world :=
          { g.g_world with
            m_bodyList := g.g_world.m_bodyList.filter (fun b => decide (b.handle ∉ q))
            destroyCalls := g.g_world.destroyCalls ++ q }
        to_delete := []
        characters := g.characters.filter (fun c => decide (c.body ∉ q)) } ∧
    Inv (clear_loop q g) := by
  induction q generalizing g with
  | nil =>
    rw [clear_loop]
    refine ⟨?_, ?_⟩
    · simp
    · exact { queue := List.Pairwise.nil, fresh := hinv.fresh, built := hinv.built,
              owns := hinv.owns, registered := hinv.registered, distinct := hinv.distinct }
  | cons itb rest ih =>
    have hrest : rest.Pairwise (· < ·) := (List.pairwise_cons.mp hq).2
    rw [clear_loop]
    have hstep := Inv_clear_body g hinv itb rest hrest
    obtain ⟨e, hI⟩ := ih _ hstep hrest
    refine ⟨?_, hI⟩
    rw [e, clear_body_eq g hinv]
    simp only [b2World.DestroyBody, List.filter_filter, List.append_assoc, List.singleton_append]
    congr 2
    · congr 1
      funext b
      by_cases h1 : b.handle = itb <;> by_cases h2 : b.handle ∈ rest <;> simp [h1, h2]
    · funext c
      by_cases h1 : c.body = itb <;> by_cases h2 : c.body ∈ rest <;> simp [h1, h2]

/-! ## The invariant is preserved by every operation -/

theorem Inv_congr {g g2 : Game} (hinv : Inv g)
    (hb : g2.g_world.m_bodyList = g.g_world.m_bodyList)
    (hn : g2.g_world.nextHandle = g.g_world.nextHandle)
    (hc : g2.characters = g.characters)
    (hq : g2.to_delete.Pairwise (· < ·)) : Inv g2 where
  queue := hq
  fresh := by
    unfold FreshHandles
    rw [hb, hn]
    exact hinv.fresh
  built := by
    unfold CharacterBodies
    rw [hb]
    exact hinv.built
  owns := by
    rw [hb, hc]
    exact hinv.owns
  registered := by
    rw [hb, hc]
    exact hinv.registered
  distinct := by
    rw [hc]
    exact hinv.distinct

theorem Inv_dispatch (g : Game) (e : ContactEvent) (hinv : Inv g) : Inv (dispatch g e) := by
  obtain ⟨hw, hc⟩ := dispatch_frame g e
  refine Inv_congr hinv (by rw [hw]) (by rw [hw]) hc ?_
  rcases dispatch_to_delete g e with h | ⟨c, -, h⟩
  · rw [h]; exact hinv.queue
  · rw [h]; exact setInsert_sorted c _ hinv.queue

theorem Inv_foldl_dispatch (events : List ContactEvent) (g : Game) (hinv : Inv g) :
    Inv (events.foldl dispatch g) := by
  induction events generalizing g with
  | nil => exact hinv
  | cons e es ih => exact ih _ (Inv_dispatch g e hinv)

theorem Inv_Step (g : Game) (dt : ℚ) (events : List ContactEvent) (hinv : Inv g) :
    Inv (Step g dt events) := by
  unfold Step
  apply Inv_foldl_dispatch
  exact Inv_congr hinv rfl rfl rfl hinv.queue

theorem map_fixture_id (l : List b2Body) (h : Nat) (shape : b2ShapeType)
    (hl : ∀ b ∈ l, b.handle ≠ h) :
    l.map (fun b =>
      if b.handle == h then { b with m_fixtureList := shape :: b.m_fixtureList } else b) = l := by
  induction l with
  | nil => rfl
  | cons x xs ih =>
    have hx : x.handle ≠ h := hl x (List.mem_cons_self _ _)
    rw [List.map_cons, ih (fun b hb => hl b (List.mem_cons_of_mem _ hb))]
    simp [hx]

theorem CreateFixture_CreateBody (w : b2World) (bd : b2BodyDef) (shape : b2ShapeType)
    (hf : FreshHandles w) :
    (w.CreateBody bd).2.CreateFixture (w.CreateBody bd).1 shape =
      { w with
        m_bodyList :=
          { handle := w.nextHandle, m_type := bd.type, m_fixtureList := [shape],
            m_userData := bd.userData } :: w.m_bodyList
        nextHandle := w.nextHandle + 1 } := by
  unfold b2World.CreateFixture b2World.CreateBody
  simp only [List.map_cons, beq_self_eq_true, if_true]
  rw [map_fixture_id]
  intro b hb
  exact Nat.ne_of_lt (hf.2 b hb)

theorem FreshHandles_cons (w : b2World) (nb : b2Body) (hf : FreshHandles w)
    (hh : nb.handle = w.nextHandle) :
    FreshHandles { w with m_bodyList := nb :: w.m_bodyList, nextHandle := w.nextHandle + 1 } := by
  refine ⟨?_, ?_⟩
  · show (List.map (fun b => b.handle) (nb :: w.m_bodyList)).Nodup
    rw [List.map_cons, List.nodup_cons]
    refine ⟨?_, hf.1⟩
    intro hm
    obtain ⟨b, hb, e⟩ := List.mem_map.mp hm
    have := hf.2 b hb
    omega
  · intro b hb
    show b.handle < w.nextHandle + 1
    rcases List.mem_cons.mp hb with rfl | hb
    · omega
    · have := hf.2 b hb
      omega

theorem Inv_createPiece (g : Game) (type : b2BodyType) (shape : b2ShapeType) (hinv : Inv g) :
    Inv { g with g_world := createPiece g.g_world type shape } := by
  unfold createPiece
  simp only
  rw [CreateFixture_CreateBody _ _ _ hinv.fresh]
  exact
    { queue := hinv.queue
      fresh := FreshHandles_cons _ _ hinv.fresh rfl
      built := by
        intro b hb c hc
        rcases List.mem_cons.mp hb with rfl | hb
        · cases hc
        · exact hinv.built b hb c hc
      owns := by
        intro c hc
        obtain ⟨b, hb, h1, h2⟩ := hinv.owns c hc
        exact ⟨b, List.mem_cons_of_mem _ hb, h1, h2⟩
      registered := by
        intro b hb c hc
        rcases List.mem_cons.mp hb with rfl | hb
        · cases hc
        · exact hinv.registered b hb c hc
      distinct := hinv.distinct }

theorem spawn_eq (g : Game) (p_size : Int) (hf : FreshHandles g.g_world) :
    spawn g p_size =
      { g with
        g_world :=
          { g.g_world with
            m_bodyList :=
              { handle := g.g_world.nextHandle, m_type := .b2_dynamicBody,
                m_fixtureList := [.e_polygon],
                m_userData := some ⟨g.g_world.nextHandle, p_size⟩ } :: g.g_world.m_bodyList
            nextHandle := g.g_world.nextHandle + 1 }
        characters := g.characters ++ [⟨g.g_world.nextHandle, p_size⟩] } := by
  unfold spawn Character.ctor
  simp only
  rw [CreateFixture_CreateBody _ _ _ hf]
  rfl

theorem Inv_spawn (g : Game) (p_size : Int) (hinv : Inv g) : Inv (spawn g p_size) := by
  rw [spawn_eq g p_size hinv.fresh]
  exact
    { queue := hinv.queue
      fresh := FreshHandles_cons _ _ hinv.fresh rfl
      built := by
        intro b hb c hc
        rcases List.mem_cons.mp hb with rfl | hb
        · simp only [Option.some.injEq] at hc
          subst hc
          exact ⟨rfl, rfl, rfl⟩
        · exact hinv.built b hb c hc
      owns := by
        intro c hc
        rcases List.mem_append.mp hc with hc | hc
        · obtain ⟨b, hb, h1, h2⟩ := hinv.owns c hc
          exact ⟨b, List.mem_cons_of_mem _ hb, h1, h2⟩
        · rw [List.mem_singleton] at hc
          subst hc
          exact ⟨_, List.mem_cons_self _ _, rfl, rfl⟩
      registered := by
        intro b hb c hc
        rcases List.mem_cons.mp hb with rfl | hb
        · simp only [Option.some.injEq] at hc
          subst hc
          exact List.mem_append_right _ (List.mem_singleton_self _)
        · exact List.mem_append_left _ (hinv.registered b hb c hc)
      distinct := by
        show (List.map (fun c => c.body) (g.characters ++ [_])).Nodup
        rw [List.map_append, List.map_singleton]
        apply List.Nodup.append hinv.distinct (List.nodup_singleton _)
        intro x hx hx2
        rw [List.mem_singleton] at hx2
        obtain ⟨c, hc, e⟩ := List.mem_map.mp hx
        obtain ⟨b, hb, h1, -⟩ := hinv.owns c hc
        have := hinv.fresh.2 b hb
        simp only at e hx2
        omega }

theorem foldl_dtor_bodyList (cs : List Character) (w : b2World) :
    (cs.foldl (fun w c => c.dtor w) w).m_bodyList =
      w.m_bodyList.filter (fun b => decide (b.handle ∉ cs.map (fun c => c.body))) ∧
    (cs.foldl (fun w c => c.dtor w) w).nextHandle = w.nextHandle := by
  induction cs generalizing w with
  | nil => simp
  | cons c cs ih =>
    rw [List.foldl_cons]
    obtain ⟨h1, h2⟩ := ih (c.dtor w)
    refine ⟨?_, h2⟩
    rw [h1]
    simp only [Character.dtor, b2World.DestroyBody, List.filter_filter, List.map_cons]
    congr 1
    funext b
    by_cases e1 : b.handle = c.body <;>
      by_cases e2 : b.handle ∈ List.map (fun c => c.body) cs <;> simp [e1, e2]

theorem Inv_teardown (g : Game) (hinv : Inv g) : Inv (teardown g) where
  queue := hinv.queue
  fresh := by
    unfold FreshHandles teardown
    simp only
    rw [(foldl_dtor_bodyList _ _).1, (foldl_dtor_bodyList _ _).2]
    refine ⟨hinv.fresh.1.sublist (List.Sublist.map _ (List.filter_sublist _)), ?_⟩
    intro b hb
    exact hinv.fresh.2 b (List.mem_of_mem_filter hb)
  built := by
    unfold CharacterBodies teardown
    simp only
    rw [(foldl_dtor_bodyList _ _).1]
    intro b hb c hc
    exact hinv.built b (List.mem_of_mem_filter hb) c hc
  owns := by
    intro c hc
    cases hc
  registered := by
    unfold teardown
    simp only
    rw [(foldl_dtor_bodyList _ _).1]
    intro b hb c hc
    exfalso
    obtain ⟨hb1, hb2⟩ := List.mem_filter.mp hb
    have hcm := hinv.registered b hb1 c hc
    have hcb := (hinv.built b hb1 c hc).1
    have : b.handle ∈ g.characters.map (fun c => c.body) :=
      List.mem_map.mpr ⟨c, hcm, hcb⟩
    simp [this] at hb2
  distinct := List.nodup_nil

theorem Inv_clear_bodies (g : Game) (hinv : Inv g) : Inv (clear_bodies g) := by
  unfold clear_bodies
  split_ifs
  · exact (clear_loop_eq g.to_delete g hinv hinv.queue).2
  · exact hinv

theorem Inv_new : Inv Game.new where
  queue := List.Pairwise.nil
  fresh := ⟨List.nodup_nil, fun b hb => by cases hb⟩
  built := fun b hb => by cases hb
  owns := fun c hc => by cases hc
  registered := fun b hb => by cases hb
  distinct := List.nodup_nil

theorem Inv_dominoes (n : Nat) (g : Game) (hinv : Inv g) :
    Inv { g with g_world := dominoes n g.g_world } := by
  induction n generalizing g with
  | zero => exact hinv
  | succ k ih => exact ih _ (Inv_createPiece g _ _ hinv)

theorem Inv_startup : Inv startup := by
  unfold startup
  exact Inv_dominoes 60 _ (Inv_spawn _ 500 (Inv_createPiece Game.new _ _ Inv_new))

theorem Reachable.inv {g : Game} (hr : Reachable g) : Inv g := by
  induction hr with
  | startup => exact Inv_startup
  | press g yd _ ih => exact Inv_spawn g _ ih
  | beginContact g c _ ih => exact Inv_dispatch g (.begin c) ih
  | endContact g c _ ih => exact Inv_dispatch g (.finish c) ih
  | step g dt events _ ih => exact Inv_Step g dt events ih
  | clearIteration g itb rest _ hq ih =>
    exact Inv_clear_body g ih itb rest (List.pairwise_cons.mp (hq ▸ ih.queue)).2
  | clear g _ ih => exact Inv_clear_bodies g ih
  | teardown g _ ih => exact Inv_teardown g ih

theorem Inv.bijection {g : Game} (hinv : Inv g) : Bijection g := by
  refine ⟨fun c hc => hinv.gcp_entry hc, ?_, hinv.distinct⟩
  intro b hb c hc
  have hmem : c ∈ g.characters := hinv.registered b hb c hc
  have hbody : c.body = b.handle := (hinv.built b hb c hc).1
  have hnd := hinv.distinct
  generalize g.characters = l at hmem hnd
  induction l with
  | nil => cases hmem
  | cons x xs ih =>
    rw [List.map_cons, List.nodup_cons] at hnd
    rw [List.filter_cons]
    rcases List.mem_cons.mp hmem with rfl | hmem
    · have e1 : (c.body == b.handle) = true := by simp [hbody]
      rw [e1, if_pos rfl]
      congr 1
      apply List.filter_eq_nil_iff.mpr
      intro a ha
      have : a.body ≠ b.handle := by
        intro e
        exact hnd.1 (List.mem_map.mpr ⟨a, ha, by rw [e, hbody]⟩)
      simp [this]
    · have hx : x.body ≠ b.handle := by
        intro e
        exact hnd.1 (List.mem_map.mpr ⟨c, hmem, by rw [e, hbody]⟩)
      have e1 : (x.body == b.handle) = false := by simp [hx]
      rw [e1]
      simpa using ih hmem hnd.2

/-! ## The loop of `clear_bodies` without the registry invariant -/

theorem clear_bodies_eq_loop (g : Game) : clear_bodies g = clear_loop g.to_delete g := by
  unfold clear_bodies
  split_ifs with h
  · rfl
  · have hq : g.to_delete = [] := by simpa using h
    rw [hq, clear_loop]
    cases g
    simp_all

theorem clear_body_congr (g1 g2 : Game) (itb : Nat) (hw : g1.g_world = g2.g_world)
    (hc : g1.characters = g2.characters) :
    (clear_body g1 itb).g_world = (clear_body g2 itb).g_world ∧
    (clear_body g1 itb).characters = (clear_body g2 itb).characters := by
  unfold clear_body
  rw [hw, hc]
  split
  · split <;> simp [hw, hc]
  · simp [hw, hc]

theorem clear_loop_congr (q : List Nat) (g1 g2 : Game) (hw : g1.g_world = g2.g_world)
    (hc : g1.characters = g2.characters) : clear_loop q g1 = clear_loop q g2 := by
  cases q with
  | nil => rw [clear_loop, clear_loop, hw, hc]
  | cons itb rest =>
    rw [clear_loop, clear_loop]
    obtain ⟨h1, h2⟩ := clear_body_congr g1 g2 itb hw hc
    show clear_loop rest ⟨(clear_body g1 itb).g_world, rest, (clear_body g1 itb).characters⟩ =
      clear_loop rest ⟨(clear_body g2 itb).g_world, rest, (clear_body g2 itb).characters⟩
    rw [h1, h2]

theorem clear_body_cases (g : Game) (itb : Nat) (hcb : CharacterBodies g.g_world) :
    ((clear_body g itb).g_world = g.g_world.DestroyBody itb ∨
      ((clear_body g itb).g_world = g.g_world ∧
        Character.getCharacterPointerFromBody g.g_world itb ≠ none)) ∧
    (Character.getCharacterPointerFromBody g.g_world itb = none →
      clear_body g itb = { g with g_world := g.g_world.DestroyBody itb }) := by
  unfold clear_body
  split
  · next cp hcp =>
    obtain ⟨b, hb, hh, ht⟩ := gcp_eq_some hcp
    have hbody : cp.body = itb := by rw [(hcb b hb cp ht).1, hh]
    refine ⟨?_, fun h => by rw [hcp] at h; cases h⟩
    split
    · next itc hitc =>
      have hb2 : itc.body = itb := by
        have := List.find?_some hitc
        simpa [Character.eq, hbody] using this
      left
      simp only [Character.dtor, hb2]
    · right
      exact ⟨rfl, by rw [hcp]; simp⟩
  · exact ⟨Or.inl rfl, fun _ => rfl⟩

theorem clear_loop_calls (q : List Nat) (g : Game) (hcb : CharacterBodies g.g_world) :
    ∃ calls : List Nat,
      (clear_loop q g).g_world.destroyCalls = g.g_world.destroyCalls ++ calls ∧
      calls.Sublist q ∧
      ∀ h ∈ q, Character.getCharacterPointerFromBody g.g_world h = none → h ∈ calls := by
  induction q generalizing g with
  | nil => exact ⟨[], by simp [clear_loop], List.Sublist.refl _, fun h hh => by cases hh⟩
  | cons itb rest ih =>
    rw [clear_loop]
    obtain ⟨hcase, hnone⟩ := clear_body_cases g itb hcb
    rcases hcase with hw | ⟨hw, hsome⟩
    · have hcb2 : CharacterBodies
          ({ clear_body g itb with to_delete := rest } : Game).g_world := by
        show CharacterBodies (clear_body g itb).g_world
        rw [hw]
        exact CharacterBodies_DestroyBody itb hcb
      obtain ⟨calls, h1, h2, h3⟩ := ih _ hcb2
      refine ⟨itb :: calls, ?_, h2.cons₂ itb, ?_⟩
      · rw [h1]
        show (clear_body g itb).g_world.destroyCalls ++ calls = _
        rw [hw]
        simp [b2World.DestroyBody]
      · intro h hh hn
        rcases List.mem_cons.mp hh with rfl | hh
        · exact List.mem_cons_self _ _
        · apply List.mem_cons_of_mem
          apply h3 h hh
          show Character.getCharacterPointerFromBody (clear_body g itb).g_world h = none
          rw [hw, gcp_DestroyBody]
          split_ifs
          · rfl
          · exact hn
    · have hcb2 : CharacterBodies
          ({ clear_body g itb with to_delete := rest } : Game).g_world := by
        show CharacterBodies (clear_body g itb).g_world
        rw [hw]
        exact hcb
      obtain ⟨calls, h1, h2, h3⟩ := ih _ hcb2
      refine ⟨calls, ?_, h2.cons itb, ?_⟩
      · rw [h1]
        show (clear_body g itb).g_world.destroyCalls ++ calls = _
        rw [hw]
      · intro h hh hn
        rcases List.mem_cons.mp hh with rfl | hh
        · exact absurd hn hsome
        · apply h3 h hh
          show Character.getCharacterPointerFromBody (clear_body g itb).g_world h = none
          rw [hw]
          exact hn

theorem clear_body_sim (h : Nat) (g1 g2 : Game) (itb : Nat) (hne : itb ≠ h)
    (hc : g1.characters = g2.characters)
    (hl : ∀ k, k ≠ h → Character.getCharacterPointerFromBody g1.g_world k =
      Character.getCharacterPointerFromBody g2.g_world k) :
    (clear_body g1 itb).characters = (clear_body g2 itb).characters ∧
    ∀ k, k ≠ h → Character.getCharacterPointerFromBody (clear_body g1 itb).g_world k =
      Character.getCharacterPointerFromBody (clear_body g2 itb).g_world k := by
  unfold clear_body
  rw [← hl itb hne, hc]
  split
  · split
    · refine ⟨rfl, ?_⟩
      intro k hk
      simp only [Character.dtor, gcp_DestroyBody, hl k hk]
    · exact ⟨hc, hl⟩
  · refine ⟨rfl, ?_⟩
    intro k hk
    simp only [gcp_DestroyBody, hl k hk]

theorem clear_loop_sim (h : Nat) (q : List Nat) (g1 g2 : Game) (hq : h ∉ q)
    (hc : g1.characters = g2.characters)
    (hl : ∀ k, k ≠ h → Character.getCharacterPointerFromBody g1.g_world k =
      Character.getCharacterPointerFromBody g2.g_world k) :
    (clear_loop q g1).characters = (clear_loop q g2).characters := by
  induction q generalizing g1 g2 with
  | nil => exact hc
  | cons itb rest ih =>
    rw [clear_loop, clear_loop]
    have hne : itb ≠ h := fun e => hq (e ▸ List.mem_cons_self _ _)
    obtain ⟨s1, s2⟩ := clear_body_sim h g1 g2 itb hne hc hl
    exact ih _ _ (fun hm => hq (List.mem_cons_of_mem _ hm)) s1 s2

theorem clear_loop_skip (h : Nat) (q : List Nat) (g : Game) (hq : q.Nodup) (hh : h ∈ q)
    (hn : Character.getCharacterPointerFromBody g.g_world h = none)
    (hcb : CharacterBodies g.g_world) :
    (clear_loop q g).characters = (clear_loop (q.erase h) g).characters := by
  induction q generalizing g with
  | nil => cases hh
  | cons itb rest ih =>
    rw [List.nodup_cons] at hq
    by_cases e : itb = h
    · subst e
      rw [List.erase_cons_head, clear_loop, (clear_body_cases g itb hcb).2 hn]
      refine clear_loop_sim itb rest
        { g_world := g.g_world.DestroyBody itb, to_delete := rest, characters := g.characters }
        g hq.1 rfl ?_
      intro k hk
      show Character.getCharacterPointerFromBody (g.g_world.DestroyBody itb) k = _
      rw [gcp_DestroyBody, if_neg hk]
    · have hh2 : h ∈ rest := by
        rcases List.mem_cons.mp hh with rfl | hh
        · exact absurd rfl e
        · exact hh
      have e2 : ¬ (itb == h) = true := by simp [e]
      rw [List.erase_cons_tail e2, clear_loop, clear_loop]
      rw [clear_loop_congr (rest.erase h)
        { clear_body g itb with to_delete := rest.erase h }
        { clear_body g itb with to_delete := rest } rfl rfl]
      apply ih _ hq.2 hh2
      · show Character.getCharacterPointerFromBody (clear_body g itb).g_world h = none
        rcases (clear_body_cases g itb hcb).1 with hw | ⟨hw, -⟩
        · rw [hw, gcp_DestroyBody]
          split_ifs
          · rfl
          · exact hn
        · rw [hw]; exact hn
      · show CharacterBodies (clear_body g itb).g_world
        rcases (clear_body_cases g itb hcb).1 with hw | ⟨hw, -⟩
        · rw [hw]; exact CharacterBodies_DestroyBody itb hcb
        · rw [hw]; exact hcb

theorem sorted_nodup {q : List Nat} (hq : q.Pairwise (· < ·)) : q.Nodup :=
  hq.imp (fun h => Nat.ne_of_lt h)

theorem clear_loop_to_delete (q : List Nat) (g : Game) : (clear_loop q g).to_delete = [] := by
  induction q generalizing g with
  | nil => rfl
  | cons x xs ih => rw [clear_loop]; exact ih _

/-! ## Registry and deletion queue: the claims -/

/-- C4. Bijection invariant: in every reachable state each registry entry's
body is live and tagged with that entry, each character-tagged live body is
referenced by exactly one registry entry (the character it is tagged with), and
no two registry entries reference the same body. -/
theorem reachable_bijection (g : Game) (hr : Reachable g) : Bijection g :=
  hr.inv.bijection

/-- Witness for C4: a mouse press, a begin-contact and a drain after startup. -/
theorem reachable_bijection_witness :
    Reachable (clear_bodies (BeginContact (MouseButtonCallback startup 50) contact12)) ∧
    Bijection (clear_bodies (BeginContact (MouseButtonCallback startup 50) contact12)) :=
  ⟨Reachable.clear _ (Reachable.beginContact _ _ (Reachable.press _ _ Reachable.startup)),
   reachable_bijection _
    (Reachable.clear _ (Reachable.beginContact _ _ (Reachable.press _ _ Reachable.startup)))⟩

/-- C3. Drain postcondition: under the invariant of the globals (in particular
registry entries with pairwise distinct bodies), after `clear_bodies` the
registry holds exactly the entries whose body was not queued, in their original
order, and the queue is empty; with an empty queue nothing changes. -/
theorem clear_bodies_drain (g : Game) (hinv : Inv g) :
    (clear_bodies g).characters =
      g.characters.filter (fun c => decide (c.body ∉ g.to_delete)) ∧
    (clear_bodies g).to_delete = [] ∧
    (g.to_delete = [] → clear_bodies g = g) := by
  rw [clear_bodies_eq_loop, (clear_loop_eq g.to_delete g hinv hinv.queue).1]
  refine ⟨rfl, rfl, ?_⟩
  intro hq
  rw [hq]
  cases g
  simp_all

/-- Witness for C3: sizes 100 and 50 collide, the size-50 body is queued, and
after the drain exactly the size-100 character remains. -/
theorem clear_bodies_drain_witness :
    twoCharactersMarked.to_delete = [2] ∧
    (clear_bodies twoCharactersMarked).characters = [⟨1, 100⟩] ∧
    (clear_bodies twoCharactersMarked).to_delete = [] := by
  have hinv : Inv twoCharactersMarked :=
    Inv_dispatch twoCharacters (.begin contact12) (Inv_spawn _ 50 (Inv_spawn _ 100 Inv_new))
  have h := clear_bodies_drain twoCharactersMarked hinv
  refine ⟨by decide, ?_, h.2.1⟩
  rw [h.1]
  decide

/-- C1. Idempotent marking: inserting the body of a registered character into
the queue N ≥ 1 times gives the same queue as inserting it once; the following
`clear_bodies` removes that character, which occurred once in the registry,
keeps exactly the entries whose body is not queued, and issues exactly one
`DestroyBody` call for that body. -/
theorem marking_idempotent (g : Game) (c : Character) (N : Nat)
    (hinv : Inv g) (hc : c ∈ g.characters) (hN : 1 ≤ N) :
    (setInsert c.body)^[N] g.to_delete = setInsert c.body g.to_delete ∧
    g.characters.count c = 1 ∧
    c ∉ (clear_bodies { g with to_delete := (setInsert c.body)^[N] g.to_delete }).characters ∧
    (clear_bodies { g with to_delete := (setInsert c.body)^[N] g.to_delete }).characters =
      g.characters.filter (fun e => decide (e.body ∉ setInsert c.body g.to_delete)) ∧
    (clear_bodies
        { g with to_delete := (setInsert c.body)^[N] g.to_delete }).g_world.destroyCalls.count
      c.body = g.g_world.destroyCalls.count c.body + 1 := by
  obtain ⟨n, rfl⟩ : ∃ n, N = n + 1 := ⟨N - 1, by omega⟩
  have hiter := iterate_setInsert c.body g.to_delete n
  have hsorted : (setInsert c.body g.to_delete).Pairwise (· < ·) :=
    setInsert_sorted _ _ hinv.queue
  have hinv2 : Inv { g with to_delete := setInsert c.body g.to_delete } :=
    Inv_congr hinv rfl rfl rfl hsorted
  have hmemq : c.body ∈ setInsert c.body g.to_delete := (mem_setInsert _ _ _).mpr (Or.inl rfl)
  have hnd : g.characters.Nodup := List.Nodup.of_map _ hinv.distinct
  rw [hiter, clear_bodies_eq_loop]
  have hloop := (clear_loop_eq (setInsert c.body g.to_delete) _ hinv2 hsorted).1
  simp only at hloop
  rw [hloop]
  refine ⟨rfl, List.count_eq_one_of_mem hnd hc, ?_, rfl, ?_⟩
  · intro hm
    have := (List.mem_filter.mp hm).2
    simp [hmemq] at this
  · show List.count c.body (g.g_world.destroyCalls ++ setInsert c.body g.to_delete) = _
    rw [List.count_append, List.count_eq_one_of_mem (sorted_nodup hsorted) hmemq]

/-- Witness for C1: the size-50 character is marked three times, removed once. -/
theorem marking_idempotent_witness :
    (setInsert 2)^[3] twoCharacters.to_delete = [2] ∧
    (clear_bodies { twoCharacters with
      to_delete := (setInsert 2)^[3] twoCharacters.to_delete }).g_world.destroyCalls.count 2
      = 1 := by
  have hinv : Inv twoCharacters := Inv_spawn _ 50 (Inv_spawn _ 100 Inv_new)
  have h := marking_idempotent twoCharacters ⟨2, 50⟩ 3 hinv (by decide) (by decide)
  refine ⟨?_, ?_⟩
  · rw [h.1]; decide
  · rw [h.2.2.2.2]; decide

/-- C6. Collision dispatch filter: in a world whose tagged bodies are as the
`Character` constructor made them and for a contact between fixtures of that
world, `BeginContact` changes the queue only if both bodies are dynamic and
both resolve to a character; if either body is not dynamic or is not a
character the whole state is unchanged; and on a pair of dynamic character
bodies exactly the loser of the resolution policy is marked. -/
theorem BeginContact_filter (g : Game) (contact : b2Contact)
    (hcb : CharacterBodies g.g_world) (hci : ContactIn g.g_world contact) :
    ((BeginContact g contact).to_delete ≠ g.to_delete →
      (∃ bA, g.g_world.deref contact.fixtureA.GetBody = some bA ∧
        bA.m_type = .b2_dynamicBody ∧ bA.m_userData ≠ none) ∧
      (∃ bB, g.g_world.deref contact.fixtureB.GetBody = some bB ∧
        bB.m_type = .b2_dynamicBody ∧ bB.m_userData ≠ none)) ∧
    (∀ bA, g.g_world.deref contact.fixtureA.GetBody = some bA →
      (bA.m_type ≠ .b2_dynamicBody ∨ bA.m_userData = none) → BeginContact g contact = g) ∧
    (∀ bB, g.g_world.deref contact.fixtureB.GetBody = some bB →
      (bB.m_type ≠ .b2_dynamicBody ∨ bB.m_userData = none) → BeginContact g contact = g) ∧
    (∀ bA bB a b, g.g_world.deref contact.fixtureA.GetBody = some bA →
      g.g_world.deref contact.fixtureB.GetBody = some bB →
      bA.m_type = .b2_dynamicBody → bB.m_type = .b2_dynamicBody →
      bA.m_userData = some a → bB.m_userData = some b →
      BeginContact g contact =
        { g with to_delete := setInsert (if a.size < b.size then a else b).body g.to_delete }) := by
  have hdyn : ∀ h c, Character.getCharacterPointerFromBody g.g_world h = some c →
      ∃ bd, g.g_world.deref h = some bd ∧ bd.m_type = .b2_dynamicBody ∧
        bd.m_userData = some c := by
    intro h c hc
    unfold Character.getCharacterPointerFromBody at hc
    split at hc
    · next bd hbd =>
      exact ⟨bd, hbd, (hcb bd (deref_eq_some hbd).1 c hc).2.1, hc⟩
    · cases hc
  have hgcp : ∀ h bd, g.g_world.deref h = some bd →
      Character.getCharacterPointerFromBody g.g_world h = bd.m_userData := by
    intro h bd hbd
    unfold Character.getCharacterPointerFromBody
    rw [hbd]
  have hunch : ∀ h bd, g.g_world.deref h = some bd →
      (bd.m_type ≠ .b2_dynamicBody ∨ bd.m_userData = none) →
      Character.getCharacterPointerFromBody g.g_world h = none := by
    intro h bd hbd hor
    rw [hgcp h bd hbd]
    rcases hor with hne | hnone
    · cases hu : bd.m_userData with
      | none => rfl
      | some c => exact absurd (hcb bd (deref_eq_some hbd).1 c hu).2.1 hne
    · exact hnone
  refine ⟨?_, ?_, ?_, ?_⟩
  · intro hne
    rcases BeginContact_cases g contact with h | ⟨a, b, ha, hb, -⟩
    · exact absurd (by rw [h]) hne
    · obtain ⟨bA, h1, h2, h3⟩ := hdyn _ a ha
      obtain ⟨bB, h4, h5, h6⟩ := hdyn _ b hb
      exact ⟨⟨bA, h1, h2, by rw [h3]; simp⟩, ⟨bB, h4, h5, by rw [h6]; simp⟩⟩
  · intro bA hA hor
    rcases BeginContact_cases g contact with h | ⟨a, b, ha, -, -⟩
    · exact h
    · rw [hunch _ bA hA hor] at ha
      cases ha
  · intro bB hB hor
    rcases BeginContact_cases g contact with h | ⟨a, b, -, hb, -⟩
    · exact h
    · rw [hunch _ bB hB hor] at hb
      cases hb
  · intro bA bB a b hA hB _ _ ha hb
    have hsA : contact.fixtureA.GetType = .e_polygon := by
      have := hci.1 bA hA
      rw [(hcb bA (deref_eq_some hA).1 a ha).2.2] at this
      simpa using this
    have hsB : contact.fixtureB.GetType = .e_polygon := by
      have := hci.2 bB hB
      rw [(hcb bB (deref_eq_some hB).1 b hb).2.2] at this
      simpa using this
    have gA := hgcp _ bA hA
    have gB := hgcp _ bB hB
    rw [ha] at gA
    rw [hb] at gB
    unfold BeginContact
    simp only [hsA, hsB, gA, gB]
    by_cases hlt : a.size < b.size <;>
      simp [Character.onCollision, Character.lt, hlt, b2ShapeType.toNat, b2BodyType.toNat]

/-- Witness for C6: the boxes of the characters of sizes 100 and 50 touch and
the size-50 body is marked. -/
theorem BeginContact_filter_witness :
    CharacterBodies twoCharacters.g_world ∧ ContactIn twoCharacters.g_world contact12 ∧
    (BeginContact twoCharacters contact12).to_delete = [2] := by
  have hinv : Inv twoCharacters := Inv_spawn _ 50 (Inv_spawn _ 100 Inv_new)
  have hci : ContactIn twoCharacters.g_world contact12 := by
    constructor
    · intro b hb
      have : twoCharacters.g_world.deref contact12.fixtureA.GetBody =
          some ⟨1, .b2_dynamicBody, [.e_polygon], some ⟨1, 100⟩⟩ := by decide
      rw [this] at hb
      cases hb
      decide
    · intro b hb
      have : twoCharacters.g_world.deref contact12.fixtureB.GetBody =
          some ⟨2, .b2_dynamicBody, [.e_polygon], some ⟨2, 50⟩⟩ := by decide
      rw [this] at hb
      cases hb
      decide
  have h := (BeginContact_filter twoCharacters contact12 hinv.built hci).2.2.2
    ⟨1, .b2_dynamicBody, [.e_polygon], some ⟨1, 100⟩⟩
    ⟨2, .b2_dynamicBody, [.e_polygon], some ⟨2, 50⟩⟩ ⟨1, 100⟩ ⟨2, 50⟩
    (by decide) (by decide) rfl rfl rfl rfl
  refine ⟨hinv.built, hci, ?_⟩
  rw [h]
  decide

/-- C7. Drain of non-entity handles: for every strictly ascending queue and
every registry, in a world whose tagged bodies are as the `Character`
constructor made them, a queued address whose body resolves to no character
gets exactly one `DestroyBody` call from `clear_bodies`, and the registry after
the drain is the one the drain produces without that address in the queue. -/
theorem clear_bodies_direct_destroy (g : Game) (h : Nat)
    (hq : g.to_delete.Pairwise (· < ·)) (hcb : CharacterBodies g.g_world)
    (hh : h ∈ g.to_delete)
    (hn : Character.getCharacterPointerFromBody g.g_world h = none) :
    (clear_bodies g).g_world.destroyCalls.count h = g.g_world.destroyCalls.count h + 1 ∧
    (clear_bodies g).characters =
      (clear_bodies { g with to_delete := g.to_delete.erase h }).characters ∧
    (clear_bodies g).to_delete = [] := by
  have hnd := sorted_nodup hq
  refine ⟨?_, ?_, ?_⟩
  · rw [clear_bodies_eq_loop]
    obtain ⟨calls, h1, h2, h3⟩ := clear_loop_calls g.to_delete g hcb
    rw [h1, List.count_append,
      List.count_eq_one_of_mem (hnd.sublist h2) (h3 h hh hn)]
  · rw [clear_bodies_eq_loop, clear_bodies_eq_loop]
    rw [clear_loop_skip h g.to_delete g hnd hh hn hcb]
    rw [clear_loop_congr (g.to_delete.erase h) { g with to_delete := g.to_delete.erase h } g
      rfl rfl]
  · rw [clear_bodies_eq_loop]
    exact clear_loop_to_delete _ g

/-- Witness for C7: a queued domino piece is destroyed with one call and the
registry keeps its character. -/
theorem clear_bodies_direct_destroy_witness :
    Character.getCharacterPointerFromBody pieceMarked.g_world 2 = none ∧
    (clear_bodies pieceMarked).g_world.destroyCalls.count 2 = 1 ∧
    (clear_bodies pieceMarked).characters = [⟨1, 100⟩] := by
  have hcb : CharacterBodies pieceMarked.g_world :=
    (Inv_createPiece _ .b2_dynamicBody .e_polygon (Inv_spawn Game.new 100 Inv_new)).built
  have h := clear_bodies_direct_destroy pieceMarked 2 (by decide) hcb (by decide) (by decide)
  refine ⟨by decide, ?_, ?_⟩
  · rw [h.1]; decide
  · rw [h.2.1]; decide

end Workshop
